import Mathlib

/-!
Verification of the Fetch-Cache-Retry Orchestrator of the rubinot-death-tracker
server.  The definitions are shallow embeddings of `src/server.js` (namespace
`ServerJs`) and of the queue-based server iteration `src/unnamed/part_004`
(namespace `P4`).  Timestamps are modelled as `Int`, the type of JavaScript
`Date.now()` values and of their differences.
-/

namespace DeathTracker

/-- `CacheEntry<T>`: the `{ data, timestamp }` records stored in the
`Map`-based caches (`cache.set(key, { data, timestamp: Date.now() })`). -/
structure CEntry (α : Type) where
  data : α
  timestamp : Int
  deriving DecidableEq

/-- List-cache TTL: `CACHE_DURATION = 3000` in both server files. -/
def CACHE_DURATION : Int := 3000

/-- Detail-cache TTL: `CHARACTER_CACHE_DURATION = 86400000` (24 hours). -/
def CHARACTER_CACHE_DURATION : Int := 86400000

/-- The freshness lookup used everywhere in the source
(`cached && Date.now() - cached.timestamp < TTL`): a pure lookup that
re-checks expiry itself and never blocks. -/
def cacheGet {α : Type} (store : String → Option (CEntry α)) (key : String)
    (now ttl : Int) : Option α :=
  match store key with
  | some e => if now - e.timestamp < ttl then some e.data else none
  | none => none

/-- One entry of the periodic sweep (the `setInterval` cleanup in server.js):
entries older than `CACHE_DURATION * 3` are deleted. -/
def sweepEntry {α : Type} (e : CEntry α) (now ttl : Int) : Option (CEntry α) :=
  if now - e.timestamp > ttl * 3 then none else some e

/-- The whole-store view after the periodic sweep has run at time `now`. -/
def cacheSweep {α : Type} (store : String → Option (CEntry α)) (now ttl : Int) :
    String → Option (CEntry α) :=
  fun k =>
    match store k with
    | some e => sweepEntry e now ttl
    | none => none

/-- `MAX_RETRIES = 3` in the `/api/deaths` retry loop of server.js and in
`fetchDeathsFromRubinOT` of part_004: four attempts in total. -/
def MAX_RETRIES : Nat := 3

/-- The progressive `page.goto` timeout of the retry loop:
8000 on the first attempt, 12000 on the second, 20000 afterwards. -/
def gotoTimeout : Nat → Nat
  | 0 => 8000
  | 1 => 12000
  | _ + 2 => 20000

/-- The progressive `waitForSelector` timeout of the retry loop:
4000 on the first attempt, 6000 on the second, 8000 afterwards. -/
def selectorTimeout : Nat → Nat
  | 0 => 4000
  | 1 => 6000
  | _ + 2 => 8000

/-- The retry loop shared by server.js `/api/deaths` and part_004
`fetchDeathsFromRubinOT`: `while (retryCount <= MAX_RETRIES)` attempts the
upstream operation; a successful attempt breaks out with its value, a failed
attempt increments `retryCount` and gives up once `retryCount > MAX_RETRIES`.
`outcome rc` is the result of the attempt with retry counter `rc`
(`some v` = the attempt broke out of the loop with parsed value `v`,
`none` = the attempt threw).  The returned pair is the success value together
with the number of attempts performed. -/
def runRetryAux {α : Type} (outcome : Nat → Option α) : Nat → Nat → Option (α × Nat)
  | _, 0 => none
  | rc, fuel + 1 =>
    match outcome rc with
    | some v => some (v, rc + 1)
    | none => if rc + 1 > MAX_RETRIES then none else runRetryAux outcome (rc + 1) fuel

/-- Entry point of the retry loop: retry counter starts at 0. -/
def runRetry {α : Type} (outcome : Nat → Option α) : Option (α × Nat) :=
  runRetryAux outcome 0 (MAX_RETRIES + 1)

namespace ServerJs

/-- The requestLog record kept per IP by server.js:
`{ requests: [], lastRequest: 0 }`. -/
structure IpData where
  requests : List Int
  lastRequest : Int
  deriving DecidableEq

/-- The record inserted for a previously unseen IP. -/
def initIpData : IpData := ⟨[], 0⟩

/-- `RATE_LIMIT_WINDOW = 60000` in server.js. -/
def RATE_LIMIT_WINDOW : Int := 60000

/-- Outcome of `rateLimitMiddleware`: a 429 response or pass-through. -/
inductive MwOut where
  | tooFast
  | passed
  deriving DecidableEq

/-- `rateLimitMiddleware` of server.js (lines 41-72) acting on the record of
the requesting IP.  It runs on every `/api` request, cache hit or not: a
request arriving less than 500 ms after the previous request of the same IP is
answered 429 before the record is touched; otherwise `lastRequest` is advanced
to `now` and the request passes through. -/
def rateLimitMiddleware (d : Option IpData) (now : Int) : MwOut × IpData :=
  if (d.getD initIpData).lastRequest > 0 ∧ now - (d.getD initIpData).lastRequest < 500 then
    (MwOut.tooFast, d.getD initIpData)
  else
    (MwOut.passed, { d.getD initIpData with lastRequest := now })

/-- `logRateLimitRequest` of server.js (lines 75-97), called only on the
actual-upstream-fetch path: prunes the sliding window and appends `now`.
The over-the-ceiling comparison in the source only prints a warning, so it
does not appear in the state. -/
def logRateLimitRequest (d : IpData) (now : Int) : IpData :=
  ⟨d.requests.filter (fun t => now - t < RATE_LIMIT_WINDOW) ++ [now], d.lastRequest⟩

/-- Response prefix produced by the `/api/deaths` handler before any upstream
work: a 429 from the middleware, a list-cache hit, or the fall-through to the
fetch path. -/
inductive DeathsResp (α : Type) where
  | tooFast
  | cacheHit (data : α)
  | fetchPath
  deriving DecidableEq

/-- The request-handling prefix of `GET /api/deaths` in server.js: the
middleware runs first (it is mounted on `/api`), then the list-cache check
(lines 547-564); `logRateLimitRequest` is invoked only when the cache missed
(lines 566-569).  Returns the response prefix, the identity's requestLog
record afterwards, and the number of `logRateLimitRequest` calls performed.
The client-side VIP filter applied to the returned payload is independent of
rate limiting and is not modelled here. -/
def handleDeathsPrefix {α : Type} (d : Option IpData) (entry : Option (CEntry α))
    (now : Int) : DeathsResp α × IpData × Nat :=
  match rateLimitMiddleware d now with
  | (MwOut.tooFast, d1) => (DeathsResp.tooFast, d1, 0)
  | (MwOut.passed, d1) =>
    match entry with
    | some c =>
      if now - c.timestamp < CACHE_DURATION then
        (DeathsResp.cacheHit c.data, d1, 0)
      else
        (DeathsResp.fetchPath, logRateLimitRequest d1 now, 1)
    | none => (DeathsResp.fetchPath, logRateLimitRequest d1 now, 1)

end ServerJs

namespace P4

/-- `RATE_LIMIT_WINDOW = 60000` in part_004. -/
def RATE_LIMIT_WINDOW : Int := 60000

/-- `MAX_RUBINOT_FETCHES_PER_MINUTE = 30` in part_004. -/
def MAX_RUBINOT_FETCHES_PER_MINUTE : Nat := 30

/-- `MIN_RUBINOT_INTERVAL = 2000` in part_004. -/
def MIN_RUBINOT_INTERVAL : Int := 2000

/-- The rubinOTRequestLog record kept per identity by part_004. -/
structure RateRec where
  requests : List Int
  lastRequest : Int
  deriving DecidableEq

/-- The record inserted for a previously unseen identity
(`{ requests: [], lastRequest: 0 }`); it also represents an absent entry,
since `checkRubinOTRateLimit` inserts exactly this record before reading. -/
def initRateRec : RateRec := ⟨[], 0⟩

/-- `checkRubinOTRateLimit` of part_004 (lines 47-80) acting on the record of
one identity.  Rule order as in the source: the minimum-interval floor is
checked first and returns before any mutation; then the sliding window is
pruned locally and the ceiling is checked, again returning before any
mutation; only an admitted call writes the pruned window plus `now` and
advances `lastRequest`. -/
def checkRubinOTRateLimit (r : RateRec) (now : Int) : Bool × RateRec :=
  if r.lastRequest > 0 ∧ now - r.lastRequest < MIN_RUBINOT_INTERVAL then
    (false, r)
  else if (r.requests.filter (fun t => now - t < RATE_LIMIT_WINDOW)).length ≥
      MAX_RUBINOT_FETCHES_PER_MINUTE then
    (false, r)
  else
    (true, ⟨r.requests.filter (fun t => now - t < RATE_LIMIT_WINDOW) ++ [now], now⟩)

/-- Run a sequence of admission calls at the given times; the Boolean is true
iff every call in the sequence was admitted. -/
def runCalls (r : RateRec) : List Int → Bool × RateRec
  | [] => (true, r)
  | t :: ts =>
    let step := checkRubinOTRateLimit r t
    let rest := runCalls step.2 ts
    (step.1 && rest.1, rest.2)

/-- Number of admitted timestamps inside the trailing window at time `now`. -/
def windowCount (r : RateRec) (now : Int) : Nat :=
  (r.requests.filter (fun t => now - t < RATE_LIMIT_WINDOW)).length

/-- Thirty admission calls spaced exactly `MIN_RUBINOT_INTERVAL` apart,
starting at time 100000. -/
def callTimes : List Int := (List.range 30).map (fun i => 100000 + 2000 * (i : Int))

/-- A death record as the part_004 `/api/deaths` response path sees it; only
the fields the handler itself inspects are modelled. -/
structure Death where
  player : String
  accountStatus : String
  deriving DecidableEq

/-- `death.accountStatus && death.accountStatus.toLowerCase().includes(...)`
with the literal `vip`: the client-side VIP filter predicate. -/
def vipDeath (d : Death) : Bool :=
  d.accountStatus != "" && (d.accountStatus.toLower.splitOn "vip").length > 1

/-- Apply the client-side VIP filter when the query requested it. -/
def applyVipFilter (vip : Bool) (ds : List Death) : List Death :=
  if vip then ds.filter vipDeath else ds

/-- Response of the part_004 `/api/deaths` handler: the JSON body (an error
body models the 500 response) together with the `X-Stale-Cache` header. -/
structure Resp where
  body : Except String (List Death)
  staleHeader : Bool

/-- The cache-miss tail of the part_004 `/api/deaths` handler (lines 540-627):
on a successful fetch the (enriched) deaths are returned; on a thrown error
the catch block returns the cached value with the `X-Stale-Cache: true` header
when any cached entry exists, and a 500 error only when none does.
Enrichment and the cache write of the success path are orthogonal to this
claim and are elided. -/
def handleDeathsMiss (cached : Option (CEntry (List Death))) (vip : Bool)
    (fetchResult : Except String (List Death)) : Resp :=
  match fetchResult with
  | Except.ok deaths => ⟨Except.ok (applyVipFilter vip deaths), false⟩
  | Except.error e =>
    match cached with
    | some c => ⟨Except.ok (applyVipFilter vip c.data), true⟩
    | none => ⟨Except.error e, false⟩

/-- The part_004 `/api/deaths` handler (lines 496-628): fresh list-cache hit
returns the cached data at once, otherwise the fetch is attempted and
`handleDeathsMiss` describes the outcome. -/
def handleDeaths (cached : Option (CEntry (List Death))) (now : Int) (vip : Bool)
    (fetchResult : Except String (List Death)) : Resp :=
  match cached with
  | some c =>
    if now - c.timestamp < CACHE_DURATION then
      ⟨Except.ok (applyVipFilter vip c.data), false⟩
    else
      handleDeathsMiss cached vip fetchResult
  | none => handleDeathsMiss cached vip fetchResult

/-- `fetchDeathsFromRubinOT` as seen by its caller: the retry loop either
breaks out with parsed deaths or throws after exhausting all attempts
(`Failed to load RubinOT page after 4 attempts`). -/
def fetchDeathsFromRubinOT (outcome : Nat → Option (List Death)) :
    Except String (List Death) :=
  match runRetry outcome with
  | some (v, _) => Except.ok v
  | none => Except.error "Failed to load RubinOT page after 4 attempts"

end P4

namespace ServerJs

/-- The character-detail record produced by `fetchCharacterData`: all four
fields always present. -/
structure CharData where
  vocation : String
  residence : String
  accountStatus : String
  guild : String
  deriving DecidableEq

/-- The sentinel defaults of server.js:
`{ vocation: Unknown, residence: Unknown, accountStatus: Free Account,
guild: No Guild }`. -/
def sentinelChar : CharData :=
  ⟨"Unknown", "Unknown", "Free Account", "No Guild"⟩

/-- The `data` object built by `page.evaluate` inside `fetchCharacterData`:
each field is set only when the corresponding table row was found with a
non-empty value (the `Q` suffix stands for the possibly-missing field). -/
structure PartialChar where
  vocationQ : Option String
  residenceQ : Option String
  accountStatusQ : Option String
  guildQ : Option String
  deriving DecidableEq

/-- Outcome of one character-page fetch inside `fetchCharacterData`. -/
inductive FetchOut where
  | navError
  | slowSelector
  | parsed (d : Option PartialChar)
  deriving DecidableEq

/-- `fetchCharacterData` of server.js (lines 194-265): a thrown navigation
error or a timed-out selector wait yields the sentinel defaults; a parsed page
defaults each missing field individually (`characterData?.field || default`,
where `parsed none` models a `null` evaluate result). -/
def fetchCharacterData : FetchOut → CharData
  | FetchOut.navError => sentinelChar
  | FetchOut.slowSelector => sentinelChar
  | FetchOut.parsed d =>
    ⟨(d.bind PartialChar.vocationQ).getD "Unknown",
     (d.bind PartialChar.residenceQ).getD "Unknown",
     (d.bind PartialChar.accountStatusQ).getD "Free Account",
     (d.bind PartialChar.guildQ).getD "No Guild"⟩

/-- A primary death record as parsed from the deaths page. -/
structure Death where
  player : String
  level : Nat
  cause : String
  time : String
  deriving DecidableEq

/-- An enriched record: the death spread together with its character data
(`{ ...death, ...charData }`). -/
structure EDeath where
  death : Death
  char : CharData
  deriving DecidableEq

/-- Outcome of the per-death detail promise in the `/api/deaths` handler
(lines 798-857): a fresh characterCache hit (returned before any page is
created); a rejection of `browser.newPage()` itself, which runs at line 814
OUTSIDE the try/catch of lines 816-856, so it rejects the promise; a page
fetch with some `fetchCharacterData` outcome; or an error thrown inside the
try and absorbed by the catch branch. -/
inductive DetailOut where
  | cachedChar (c : CharData)
  | newPageFailed (e : String)
  | fetched (o : FetchOut)
  | threw
  deriving DecidableEq

/-- One per-death detail promise: the catch branch (lines 846-856) turns any
error thrown inside the try into the death with sentinel defaults, but a
`browser.newPage()` rejection happens before the try is entered, so it
rejects the promise itself. -/
def enrichOne (d : Death) : DetailOut → Except String EDeath
  | DetailOut.cachedChar c => Except.ok ⟨d, c⟩
  | DetailOut.newPageFailed e => Except.error e
  | DetailOut.fetched o => Except.ok ⟨d, fetchCharacterData o⟩
  | DetailOut.threw => Except.ok ⟨d, sentinelChar⟩

/-- `Promise.all` over the per-death promises, indexed from `i`: if any
promise rejects, the whole combination rejects, and the handler's outer catch
(lines 890-898) answers 500. -/
def enrichAllFrom (out : Nat → DetailOut) : Nat → List Death → Except String (List EDeath)
  | _, [] => Except.ok []
  | i, d :: ds =>
    match enrichOne d (out i) with
    | Except.error e => Except.error e
    | Except.ok ed =>
      match enrichAllFrom out (i + 1) ds with
      | Except.error e => Except.error e
      | Except.ok rest => Except.ok (ed :: rest)

/-- `await Promise.all(deathsToFetch.map(...))` at line 860. -/
def enrichAll (out : Nat → DetailOut) (ds : List Death) : Except String (List EDeath) :=
  enrichAllFrom out 0 ds

/-- The detail outcomes the per-promise try/catch absorbs into sentinel
defaults: an error thrown inside the try, a navigation error, or a missing
selector. -/
def failedDetail : DetailOut → Bool
  | DetailOut.threw => true
  | DetailOut.fetched FetchOut.navError => true
  | DetailOut.fetched FetchOut.slowSelector => true
  | _ => false

/-- JavaScript `Array.findIndex`: index of the first element satisfying the
predicate, -1 when there is none. -/
def findIndexJS {α : Type} (p : α → Bool) : List α → Int
  | [] => -1
  | a :: t =>
    if p a then 0
    else
      let r := findIndexJS p t
      if r < 0 then -1 else r + 1

/-- The comparator key of the final sort in `/api/deaths` (lines 862-866):
`deaths.findIndex(d => d.player === a.player)` against the original parsed
list. -/
def mergeKey (deaths : List Death) (e : EDeath) : Int :=
  findIndexJS (fun d => d.player == e.death.player) deaths

/-- Insertion into a key-sorted list; together with `sortByKey` this models
`Array.prototype.sort` with the numeric comparator `key a - key b` (whose
result is uniquely determined here because the keys are distinct under the
hypotheses of the order-preservation claim). -/
def insertByKey {α : Type} (key : α → Int) (a : α) : List α → List α
  | [] => [a]
  | b :: t => if key a ≤ key b then a :: b :: t else b :: insertByKey key a t

/-- Sorting by an integer key. -/
def sortByKey {α : Type} (key : α → Int) : List α → List α
  | [] => []
  | a :: t => insertByKey key a (sortByKey key t)

/-- Detail results in completion order: pairs of (index into `deathsToFetch`,
character data).  `charAt` extracts the result delivered for index `i`,
whatever its arrival position. -/
def charAt (arrivals : List (Nat × CharData)) (i : Nat) : CharData :=
  match arrivals.find? (fun p => p.1 == i) with
  | some p => p.2
  | none => sentinelChar

/-- `Promise.all` over `deathsToFetch`: the output order is the input order;
the i-th entry takes the result delivered for index `i` regardless of the
completion order recorded in `arrivals`. -/
def promiseAllFetch (arrivals : List (Nat × CharData)) : Nat → List Death → List EDeath
  | _, [] => []
  | i, d :: ds => ⟨d, charAt arrivals i⟩ :: promiseAllFetch arrivals (i + 1) ds

/-- The combine-and-sort tail of `/api/deaths` (lines 743-866): partition the
parsed deaths into characterCache hits and misses, fetch the first three
misses in bounded parallel, give the remaining misses sentinel defaults,
concatenate `cached ++ newlyFetched ++ quick` and sort the result back into
the original order with `mergeKey`. -/
def combineDeaths (deaths : List Death) (cachedOf : String → Option CharData)
    (arrivals : List (Nat × CharData)) : List EDeath :=
  sortByKey (mergeKey deaths)
    ((deaths.filter (fun d => (cachedOf d.player).isSome)).map
        (fun d => EDeath.mk d ((cachedOf d.player).getD sentinelChar)) ++
      promiseAllFetch arrivals 0
        ((deaths.filter (fun d => !(cachedOf d.player).isSome)).take 3) ++
      ((deaths.filter (fun d => !(cachedOf d.player).isSome)).drop 3).map
        (fun d => EDeath.mk d sentinelChar))

end ServerJs

namespace Browser

/-- Program counter of one concurrent caller of `getBrowser` (server.js lines
128-165).  Code between two awaits runs atomically on the event loop:
`start` is the entry of `getBrowser` (the `sharedBrowser` check, the
`browserLaunching` check and, when both fail, setting `browserLaunching = true`
and initiating `puppeteer.launch` happen in one atomic segment);
`waiting` is a caller suspended in the 500 ms sleep before its recursive
retry; `launching id` is the caller whose `puppeteer.launch` of instance `id`
is in flight; `done b` is a caller that returned instance `b`; `failed` is a
caller whose own launch threw. -/
inductive Pc where
  | start
  | waiting
  | launching (id : Nat)
  | done (b : Nat)
  | failed
  deriving DecidableEq

/-- The module-level browser state of server.js plus the program counters of
all concurrent callers; `nextId` supplies fresh instance identities. -/
structure St where
  shared : Option Nat
  launchingFlag : Bool
  tasks : List Pc
  nextId : Nat

/-- The initial state: no browser, flag down, `n` concurrent first-callers. -/
def init (n : Nat) : St :=
  ⟨none, false, List.replicate n Pc.start, 0⟩

/-- One atomic event-loop step of the `getBrowser` protocol. -/
inductive Step : St → St → Prop where
  | hitShared (s : St) (i : Nat) (b : Nat) :
      s.tasks[i]? = some Pc.start → s.shared = some b →
      Step s { s with tasks := s.tasks.set i (Pc.done b) }
  | seeLaunching (s : St) (i : Nat) :
      s.tasks[i]? = some Pc.start → s.shared = none → s.launchingFlag = true →
      Step s { s with tasks := s.tasks.set i Pc.waiting }
  | beginLaunch (s : St) (i : Nat) :
      s.tasks[i]? = some Pc.start → s.shared = none → s.launchingFlag = false →
      Step s { s with tasks := s.tasks.set i (Pc.launching s.nextId),
                      launchingFlag := true, nextId := s.nextId + 1 }
  | wake (s : St) (i : Nat) :
      s.tasks[i]? = some Pc.waiting →
      Step s { s with tasks := s.tasks.set i Pc.start }
  | launchOk (s : St) (i : Nat) (id : Nat) :
      s.tasks[i]? = some (Pc.launching id) →
      Step s { s with tasks := s.tasks.set i (Pc.done id),
                      shared := some id, launchingFlag := false }
  | launchFail (s : St) (i : Nat) (id : Nat) :
      s.tasks[i]? = some (Pc.launching id) →
      Step s { s with tasks := s.tasks.set i Pc.failed, launchingFlag := false }

/-- States reachable from the initial state with `n` concurrent callers. -/
inductive Reach (n : Nat) : St → Prop where
  | init : Reach n (init n)
  | step {s s2 : St} : Reach n s → Step s s2 → Reach n s2

/-- Is this caller in the middle of a `puppeteer.launch`? -/
def isLaunching : Pc → Bool
  | Pc.launching _ => true
  | _ => false

/-- Number of launches in flight: tasks whose `puppeteer.launch` is pending. -/
def countLaunching (l : List Pc) : Nat :=
  l.countP isLaunching

/-- The inductive invariant of the `getBrowser` protocol. -/
def Inv (s : St) : Prop :=
  countLaunching s.tasks = (if s.launchingFlag then 1 else 0) ∧
  (s.launchingFlag = true → s.shared = none) ∧
  (∀ (i b : Nat), s.tasks[i]? = some (Pc.done b) → s.shared = some b)

end Browser

/-! ### Helper lemmas -/

theorem runRetry_exhausted {α : Type} (outcome : Nat → Option α)
    (hfail : ∀ i, outcome i = none) : runRetry outcome = none := by
  simp [runRetry, runRetryAux, hfail, MAX_RETRIES]

theorem enrichAllFrom_ok (out : Nat → ServerJs.DetailOut)
    (hnp : ∀ (i : Nat) (e : String), out i ≠ ServerJs.DetailOut.newPageFailed e)
    (k : Nat) (ds : List ServerJs.Death) :
    ∃ l : List ServerJs.EDeath, ServerJs.enrichAllFrom out k ds = Except.ok l ∧
      l.length = ds.length ∧
      (∀ (j : Nat) (d : ServerJs.Death), ds[j]? = some d →
        ServerJs.failedDetail (out (k + j)) = true →
        l[j]? = some ⟨d, ServerJs.sentinelChar⟩) := by
  induction ds generalizing k with
  | nil =>
    refine ⟨[], rfl, rfl, ?_⟩
    intro j d hj
    simp at hj
  | cons d t ih =>
    obtain ⟨rest, hrest, hlen, hidx⟩ := ih (k + 1)
    have hsucc : ∀ ed : ServerJs.EDeath,
        ServerJs.enrichOne d (out k) = Except.ok ed →
        ServerJs.enrichAllFrom out k (d :: t) = Except.ok (ed :: rest) := by
      intro ed hed
      unfold ServerJs.enrichAllFrom
      rw [hed, hrest]
    have htail : ∀ (ed : ServerJs.EDeath) (j : Nat) (dd : ServerJs.Death),
        (d :: t)[j + 1]? = some dd →
        ServerJs.failedDetail (out (k + (j + 1))) = true →
        (ed :: rest)[j + 1]? = some ⟨dd, ServerJs.sentinelChar⟩ := by
      intro ed j dd hj hfail
      simp only [List.getElem?_cons_succ] at hj ⊢
      have hk : k + (j + 1) = k + 1 + j := by omega
      rw [hk] at hfail
      exact hidx j dd hj hfail
    cases ho : out k with
    | newPageFailed e => exact absurd ho (hnp k e)
    | cachedChar c =>
      refine ⟨⟨d, c⟩ :: rest, hsucc _ (by rw [ho]; rfl), by simp [hlen], ?_⟩
      intro j dd hj hfail
      cases j with
      | zero =>
        rw [Nat.add_zero, ho] at hfail
        cases hfail
      | succ m => exact htail _ m dd hj hfail
    | fetched o =>
      refine ⟨⟨d, ServerJs.fetchCharacterData o⟩ :: rest,
        hsucc _ (by rw [ho]; rfl), by simp [hlen], ?_⟩
      intro j dd hj hfail
      cases j with
      | zero =>
        rw [Nat.add_zero, ho] at hfail
        simp only [List.getElem?_cons_zero, Option.some.injEq] at hj ⊢
        subst hj
        cases o with
        | navError => rfl
        | slowSelector => rfl
        | parsed dd2 => cases hfail
      | succ m => exact htail _ m dd hj hfail
    | threw =>
      refine ⟨⟨d, ServerJs.sentinelChar⟩ :: rest,
        hsucc _ (by rw [ho]; rfl), by simp [hlen], ?_⟩
      intro j dd hj hfail
      cases j with
      | zero =>
        simp only [List.getElem?_cons_zero, Option.some.injEq] at hj ⊢
        subst hj
        rfl
      | succ m => exact htail _ m dd hj hfail

theorem insertByKey_perm {α : Type} (key : α → Int) (a : α) (l : List α) :
    (ServerJs.insertByKey key a l).Perm (a :: l) := by
  induction l with
  | nil => exact List.Perm.refl _
  | cons b t ih =>
    unfold ServerJs.insertByKey
    split
    · exact List.Perm.refl _
    · exact (List.Perm.cons b ih).trans (List.Perm.swap a b t)

theorem sortByKey_perm {α : Type} (key : α → Int) (l : List α) :
    (ServerJs.sortByKey key l).Perm l := by
  induction l with
  | nil => exact List.Perm.refl _
  | cons a t ih =>
    exact (insertByKey_perm key a _).trans (List.Perm.cons a ih)

theorem insertByKey_pairwise {α : Type} (key : α → Int) (a : α) (l : List α)
    (h : l.Pairwise (fun x y => key x ≤ key y)) :
    (ServerJs.insertByKey key a l).Pairwise (fun x y => key x ≤ key y) := by
  induction l with
  | nil => simp [ServerJs.insertByKey]
  | cons b t ih =>
    rw [List.pairwise_cons] at h
    obtain ⟨hb, ht⟩ := h
    unfold ServerJs.insertByKey
    split
    · rename_i hab
      rw [List.pairwise_cons]
      refine ⟨?_, ?_⟩
      · intro x hx
        rcases List.mem_cons.mp hx with rfl | hx
        · exact hab
        · exact le_trans hab (hb x hx)
      · rw [List.pairwise_cons]
        exact ⟨hb, ht⟩
    · rename_i hab
      rw [List.pairwise_cons]
      refine ⟨?_, ih ht⟩
      intro x hx
      rcases List.mem_cons.mp ((insertByKey_perm key a t).mem_iff.mp hx) with rfl | hx
      · exact le_of_not_le hab
      · exact hb x hx

theorem sortByKey_pairwise {α : Type} (key : α → Int) (l : List α) :
    (ServerJs.sortByKey key l).Pairwise (fun x y => key x ≤ key y) := by
  induction l with
  | nil => simp [ServerJs.sortByKey]
  | cons a t ih => exact insertByKey_pairwise key a _ ih

theorem findIndexJS_self {α β : Type} [BEq β] [LawfulBEq β] (f : α → β)
    (l : List α) (hnodup : (l.map f).Nodup) (i : Nat) (hi : i < l.length) :
    ServerJs.findIndexJS (fun d => f d == f (l.get ⟨i, hi⟩)) l = (i : Int) := by
  induction l generalizing i with
  | nil => simp at hi
  | cons a t ih =>
    rw [List.map_cons, List.nodup_cons] at hnodup
    cases i with
    | zero => simp [ServerJs.findIndexJS]
    | succ j =>
      have hj : j < t.length := by simpa using hi
      have hne : (f a == f (t.get ⟨j, hj⟩)) = false := by
        rw [beq_eq_false_iff_ne]
        intro he
        refine hnodup.1 ?_
        rw [he]
        have hmem : t.get ⟨j, hj⟩ ∈ t := List.get_mem t j hj
        exact List.mem_map_of_mem f hmem
      have hgc : (a :: t).get ⟨j + 1, hi⟩ = t.get ⟨j, hj⟩ := rfl
      rw [hgc]
      simp only [ServerJs.findIndexJS, hne, Bool.false_eq_true, if_false]
      rw [ih hnodup.2 j hj]
      rw [if_neg (by omega : ¬ ((j : Int) < 0))]
      omega

theorem findIndexJS_found {α : Type} (p : α → Bool) (l : List α) (i : Nat)
    (h : ServerJs.findIndexJS p l = (i : Int)) :
    ∃ hi : i < l.length, p (l.get ⟨i, hi⟩) = true := by
  induction l generalizing i with
  | nil =>
    exfalso
    simp only [ServerJs.findIndexJS] at h
    omega
  | cons a t ih =>
    by_cases hp : p a = true
    · have h0 : (0 : Int) = (i : Int) := by
        simpa [ServerJs.findIndexJS, hp] using h
      have hi0 : i = 0 := by omega
      subst hi0
      exact ⟨by simp, by simpa using hp⟩
    · have hh : (if ServerJs.findIndexJS p t < 0 then (-1 : Int)
          else ServerJs.findIndexJS p t + 1) = (i : Int) := by
        simpa [ServerJs.findIndexJS, hp] using h
      by_cases hr : ServerJs.findIndexJS p t < 0
      · rw [if_pos hr] at hh
        exact absurd hh (by omega)
      · rw [if_neg hr] at hh
        obtain ⟨j, hj⟩ : ∃ j : Nat, ServerJs.findIndexJS p t = (j : Int) :=
          ⟨(ServerJs.findIndexJS p t).toNat, (Int.toNat_of_nonneg (by omega)).symm⟩
        rw [hj] at hh
        have hij : i = j + 1 := by omega
        subst hij
        obtain ⟨hjlt, hpj⟩ := ih j hj
        exact ⟨by simpa using Nat.succ_lt_succ hjlt, by simpa using hpj⟩

theorem promiseAllFetch_players (arrivals : List (Nat × ServerJs.CharData)) (k : Nat)
    (ds : List ServerJs.Death) :
    (ServerJs.promiseAllFetch arrivals k ds).map (fun e => e.death.player) =
      ds.map (fun d => d.player) := by
  induction ds generalizing k with
  | nil => rfl
  | cons d t ih => simp [ServerJs.promiseAllFetch, ih]

theorem combineDeaths_players_perm (deaths : List ServerJs.Death)
    (cachedOf : String → Option ServerJs.CharData)
    (arrivals : List (Nat × ServerJs.CharData)) :
    ((ServerJs.combineDeaths deaths cachedOf arrivals).map (fun e => e.death.player)).Perm
      (deaths.map (fun d => d.player)) := by
  have hmap1 : ((deaths.filter (fun d => (cachedOf d.player).isSome)).map
      (fun d => ServerJs.EDeath.mk d ((cachedOf d.player).getD ServerJs.sentinelChar))).map
      (fun e => e.death.player) =
      (deaths.filter (fun d => (cachedOf d.player).isSome)).map (fun d => d.player) := by
    rw [List.map_map]
    rfl
  have hmap2 : (((deaths.filter (fun d => !(cachedOf d.player).isSome)).drop 3).map
      (fun d => ServerJs.EDeath.mk d ServerJs.sentinelChar)).map
      (fun e => e.death.player) =
      ((deaths.filter (fun d => !(cachedOf d.player).isSome)).drop 3).map
        (fun d => d.player) := by
    rw [List.map_map]
    rfl
  unfold ServerJs.combineDeaths
  refine ((sortByKey_perm _ _).map _).trans ?_
  rw [List.map_append, List.map_append, promiseAllFetch_players, hmap1, hmap2]
  rw [List.append_assoc, ← List.map_append, List.take_append_drop, ← List.map_append]
  exact (List.filter_append_perm _ deaths).map _

theorem mergeKey_eq_index (deaths : List ServerJs.Death)
    (hnodup : (deaths.map (fun d => d.player)).Nodup) (i : Nat) (hi : i < deaths.length) :
    ServerJs.findIndexJS (fun d => d.player == (deaths.get ⟨i, hi⟩).player) deaths = (i : Int) :=
  findIndexJS_self (fun d => d.player) deaths hnodup i hi

theorem sorted_keys_eq_range (deaths : List ServerJs.Death)
    (hnodup : (deaths.map (fun d => d.player)).Nodup)
    (l : List ServerJs.EDeath)
    (hperm : (l.map (fun e => e.death.player)).Perm (deaths.map (fun d => d.player)))
    (hsorted : l.Pairwise
      (fun x y => ServerJs.mergeKey deaths x ≤ ServerJs.mergeKey deaths y)) :
    l.map (ServerJs.mergeKey deaths) =
      (List.range deaths.length).map (Nat.cast : Nat → Int) := by
  have hkey : l.map (ServerJs.mergeKey deaths) =
      (l.map (fun e => e.death.player)).map
        (fun p => ServerJs.findIndexJS (fun d => d.player == p) deaths) := by
    rw [List.map_map]
    rfl
  have hdk : (deaths.map (fun d => d.player)).map
      (fun p => ServerJs.findIndexJS (fun d => d.player == p) deaths) =
      (List.range deaths.length).map (Nat.cast : Nat → Int) := by
    apply List.ext_getElem
    · simp
    · intro i h1 h2
      simp only [List.getElem_map, List.getElem_range]
      exact mergeKey_eq_index deaths hnodup i (by simpa using h1)
  have hkperm : (l.map (ServerJs.mergeKey deaths)).Perm
      ((List.range deaths.length).map (Nat.cast : Nat → Int)) := by
    rw [hkey, ← hdk]
    exact hperm.map _
  have hrangeNodup : ((List.range deaths.length).map (Nat.cast : Nat → Int)).Nodup :=
    (List.nodup_range _).map (fun a b hab => by
      simpa using congrArg Int.toNat hab)
  have hle : (l.map (ServerJs.mergeKey deaths)).Pairwise (· ≤ ·) :=
    List.pairwise_map.mpr hsorted
  have hnd : (l.map (ServerJs.mergeKey deaths)).Nodup := hkperm.symm.nodup hrangeNodup
  have hlt : (l.map (ServerJs.mergeKey deaths)).Pairwise (· < ·) :=
    (hle.and hnd).imp (fun h => lt_of_le_of_ne h.1 h.2)
  have hrange_lt :
      (((List.range deaths.length).map (Nat.cast : Nat → Int))).Pairwise (· < ·) :=
    List.pairwise_map.mpr ((List.pairwise_lt_range _).imp (fun h => by
      omega))
  exact hkperm.eq_of_sorted
    (fun a b _ _ hab hba => absurd (lt_trans hab hba) (lt_irrefl a)) hlt hrange_lt

theorem find?_perm_of_nodup_keys {γ : Type} {l l2 : List (Nat × γ)}
    (h : l.Perm l2) (i : Nat) :
    (l.map Prod.fst).Nodup →
    l.find? (fun p => p.1 == i) = l2.find? (fun p => p.1 == i) := by
  induction h with
  | nil => intro _; rfl
  | cons a h2 ih =>
    intro hn
    rw [List.map_cons, List.nodup_cons] at hn
    by_cases ha : (a.1 == i) = true
    · simp only [List.find?, ha]
    · rw [Bool.not_eq_true] at ha
      simp only [List.find?, ha]
      exact ih hn.2
  | swap x y t =>
    intro hn
    rw [List.map_cons, List.map_cons, List.nodup_cons, List.nodup_cons] at hn
    have hxy : y.1 ≠ x.1 := by
      intro he
      exact hn.1 (by rw [he]; exact List.mem_cons_self _ _)
    by_cases hy : (y.1 == i) = true
    · have hx : (x.1 == i) = false := by
        rw [beq_eq_false_iff_ne]
        rw [beq_iff_eq] at hy
        intro he
        exact hxy (by rw [hy, he])
      simp only [List.find?, hy, hx]
    · rw [Bool.not_eq_true] at hy
      by_cases hx : (x.1 == i) = true
      · simp only [List.find?, hy, hx]
      · rw [Bool.not_eq_true] at hx
        simp only [List.find?, hy, hx]
  | trans h1 h2 ih1 ih2 =>
    intro hn
    exact (ih1 hn).trans (ih2 ((h1.map Prod.fst).nodup hn))

theorem countLaunching_set (l : List Browser.Pc) (i : Nat) (a b : Browser.Pc)
    (h : l[i]? = some b) :
    Browser.countLaunching (l.set i a) + (if Browser.isLaunching b = true then 1 else 0) =
      Browser.countLaunching l + (if Browser.isLaunching a = true then 1 else 0) := by
  obtain ⟨hlt, hgb⟩ := List.getElem?_eq_some.mp h
  unfold Browser.countLaunching
  rw [List.countP_set _ _ _ _ hlt, hgb]
  by_cases hb : Browser.isLaunching b = true
  · have hpos : 0 < List.countP Browser.isLaunching l :=
      List.countP_pos_iff.mpr ⟨b, List.getElem?_mem h, hb⟩
    rw [if_pos hb]
    omega
  · rw [if_neg hb]
    omega

theorem countLaunching_pos (l : List Browser.Pc) (i : Nat) (id : Nat)
    (h : l[i]? = some (Browser.Pc.launching id)) :
    0 < Browser.countLaunching l :=
  List.countP_pos_iff.mpr ⟨_, List.getElem?_mem h, rfl⟩

theorem inv_step {s s2 : Browser.St} (hinv : Browser.Inv s) (hstep : Browser.Step s s2) :
    Browser.Inv s2 := by
  obtain ⟨h1, h2, h3⟩ := hinv
  cases hstep with
  | hitShared i b hi hsh =>
    refine ⟨?_, h2, ?_⟩
    · have hc := countLaunching_set s.tasks i (Browser.Pc.done b) Browser.Pc.start hi
      simp only [Browser.isLaunching] at hc
      simp only [show (false = true) = False from by simp, if_false] at hc
      simpa using hc.trans h1
    · intro j c hj
      by_cases hij : i = j
      · subst hij
        rw [List.getElem?_set_self (List.getElem?_eq_some.mp hi).1] at hj
        simp only [Option.some.injEq, Browser.Pc.done.injEq] at hj
        subst hj
        exact hsh
      · rw [List.getElem?_set_ne hij] at hj
        exact h3 j c hj
  | seeLaunching i hi hsh hfl =>
    refine ⟨?_, h2, ?_⟩
    · have hc := countLaunching_set s.tasks i Browser.Pc.waiting Browser.Pc.start hi
      simp only [Browser.isLaunching] at hc
      simp only [show (false = true) = False from by simp, if_false] at hc
      simpa using hc.trans h1
    · intro j c hj
      by_cases hij : i = j
      · subst hij
        rw [List.getElem?_set_self (List.getElem?_eq_some.mp hi).1] at hj
        simp at hj
      · rw [List.getElem?_set_ne hij] at hj
        exact h3 j c hj
  | beginLaunch i hi hsh hfl =>
    refine ⟨?_, ?_, ?_⟩
    · have hc := countLaunching_set s.tasks i (Browser.Pc.launching s.nextId)
        Browser.Pc.start hi
      simp only [Browser.isLaunching] at hc
      rw [h1, hfl] at hc
      simp only [Browser.St.mk.injEq] at hc ⊢
      simp at hc ⊢
      omega
    · intro _
      exact hsh
    · intro j c hj
      by_cases hij : i = j
      · subst hij
        rw [List.getElem?_set_self (List.getElem?_eq_some.mp hi).1] at hj
        simp at hj
      · rw [List.getElem?_set_ne hij] at hj
        exact h3 j c hj
  | wake i hi =>
    refine ⟨?_, h2, ?_⟩
    · have hc := countLaunching_set s.tasks i Browser.Pc.start Browser.Pc.waiting hi
      simp only [Browser.isLaunching] at hc
      simp only [show (false = true) = False from by simp, if_false] at hc
      simpa using hc.trans h1
    · intro j c hj
      by_cases hij : i = j
      · subst hij
        rw [List.getElem?_set_self (List.getElem?_eq_some.mp hi).1] at hj
        simp at hj
      · rw [List.getElem?_set_ne hij] at hj
        exact h3 j c hj
  | launchOk i id hi =>
    have hflag : s.launchingFlag = true := by
      have hpos := countLaunching_pos s.tasks i id hi
      rw [h1] at hpos
      by_cases hf : s.launchingFlag
      · exact hf
      · rw [if_neg hf] at hpos
        omega
    refine ⟨?_, ?_, ?_⟩
    · have hc := countLaunching_set s.tasks i (Browser.Pc.done id)
        (Browser.Pc.launching id) hi
      simp only [Browser.isLaunching] at hc
      rw [h1, hflag] at hc
      simp at hc ⊢
      omega
    · intro hff
      simp at hff
    · intro j c hj
      by_cases hij : i = j
      · subst hij
        rw [List.getElem?_set_self (List.getElem?_eq_some.mp hi).1] at hj
        simp only [Option.some.injEq, Browser.Pc.done.injEq] at hj
        subst hj
        rfl
      · rw [List.getElem?_set_ne hij] at hj
        have := h3 j c hj
        rw [h2 hflag] at this
        cases this
  | launchFail i id hi =>
    have hflag : s.launchingFlag = true := by
      have hpos := countLaunching_pos s.tasks i id hi
      rw [h1] at hpos
      by_cases hf : s.launchingFlag
      · exact hf
      · rw [if_neg hf] at hpos
        omega
    refine ⟨?_, ?_, ?_⟩
    · have hc := countLaunching_set s.tasks i Browser.Pc.failed
        (Browser.Pc.launching id) hi
      simp only [Browser.isLaunching] at hc
      rw [h1, hflag] at hc
      simp at hc ⊢
      omega
    · intro hff
      simp at hff
    · intro j c hj
      by_cases hij : i = j
      · subst hij
        rw [List.getElem?_set_self (List.getElem?_eq_some.mp hi).1] at hj
        simp at hj
      · rw [List.getElem?_set_ne hij] at hj
        exact h3 j c hj

theorem inv_reach {n : Nat} {s : Browser.St} (h : Browser.Reach n s) : Browser.Inv s := by
  induction h with
  | init =>
    refine ⟨?_, ?_, ?_⟩
    · simp only [Browser.init, Browser.countLaunching]
      rw [if_neg (by simp : ¬ (false = true))]
      rw [List.countP_eq_zero]
      intro a ha
      rw [List.eq_of_mem_replicate ha]
      simp [Browser.isLaunching]
    · intro hff
      simp only [Browser.init] at hff
      cases hff
    · intro j c hj
      simp only [Browser.init] at hj
      rcases List.getElem?_eq_some.mp hj with ⟨hlt, hg⟩
      rw [List.getElem_replicate] at hg
      cases hg
  | step hr hstep ih => exact inv_step ih hstep

/-! ### Claim theorems -/

/-- Claim C3: for every cache key, a lookup returns the stored value iff the
entry was stored strictly less than the configured TTL ago; a read at exactly
storedAt + TTL finds the entry absent; and the lookup result is unchanged by
the periodic sweep having run, because the lookup re-checks expiry itself. -/
theorem C3_cache_freshness {α : Type} (store : String → Option (CEntry α))
    (key : String) (now ttl sweepNow : Int) (httl : 0 < ttl) (hsw : sweepNow ≤ now) :
    (∀ v : α, cacheGet store key now ttl = some v ↔
      ∃ e : CEntry α, store key = some e ∧ v = e.data ∧ now - e.timestamp < ttl) ∧
    (∀ (v : α) (ts : Int), store key = some ⟨v, ts⟩ → now = ts + ttl →
      cacheGet store key now ttl = none) ∧
    cacheGet (cacheSweep store sweepNow ttl) key now ttl = cacheGet store key now ttl := by
  refine ⟨?_, ?_, ?_⟩
  · intro v
    cases h : store key with
    | none => simp [cacheGet, h]
    | some e =>
      simp only [cacheGet, h, Option.some.injEq]
      split
      · rename_i hc
        constructor
        · intro he
          injection he with he
          exact ⟨e, rfl, he.symm, hc⟩
        · rintro ⟨e2, he2, hv, h2⟩
          subst he2
          rw [hv]
      · rename_i hc
        constructor
        · intro hv
          exact absurd hv (by simp)
        · rintro ⟨e2, he2, hv, h2⟩
          subst he2
          exact absurd h2 hc
  · intro v ts hst hnow
    simp only [cacheGet, hst]
    rw [if_neg (by omega)]
  · simp only [cacheGet, cacheSweep]
    cases h : store key with
    | none => rfl
    | some e =>
      simp only [sweepEntry]
      by_cases hold : sweepNow - e.timestamp > ttl * 3
      · rw [if_pos hold, if_neg (by omega : ¬ (now - e.timestamp < ttl))]
      · rw [if_neg hold]

/-- Witness for C3 at a concrete store, key and times. -/
def storeW : String → Option (CEntry Nat) :=
  fun k => if k = "deaths_20_all_v4" then some ⟨7, 0⟩ else none

theorem C3_cache_freshness_witness :
    cacheGet (cacheSweep storeW 50 CACHE_DURATION) "deaths_20_all_v4" 100 CACHE_DURATION =
      cacheGet storeW "deaths_20_all_v4" 100 CACHE_DURATION :=
  (C3_cache_freshness storeW "deaths_20_all_v4" 100 CACHE_DURATION 50
    (by decide) (by decide)).2.2

/-- Claim C2 as stated is false on the code: the fourth attempt is not given a
strictly larger timeout budget than the third — both run with
gotoTimeout 20000 and selectorTimeout 8000. -/
theorem C2_counterexample :
    gotoTimeout 3 = gotoTimeout 2 ∧ selectorTimeout 3 = selectorTimeout 2 ∧
    ¬ (gotoTimeout 2 < gotoTimeout 3 ∧ selectorTimeout 2 < selectorTimeout 3) := by
  decide

/-- Claim C2 amended: timeout budgets are non-decreasing over the whole loop
and strictly increasing over the first three attempts (the fourth reuses the
timeouts of the third), and a mock upstream failing attempts 1..N-1 and
succeeding on attempt N (N ≤ 4) makes the loop return the success value after
exactly N attempts. -/
theorem C2_retry_escalation {α : Type} (outcome : Nat → Option α) (v : α) (N : Nat)
    (h1 : 1 ≤ N) (h4 : N ≤ 4)
    (hfail : ∀ i, i < N - 1 → outcome i = none)
    (hsucc : outcome (N - 1) = some v) :
    runRetry outcome = some (v, N) ∧
    (∀ i : Nat, gotoTimeout i ≤ gotoTimeout (i + 1) ∧
      selectorTimeout i ≤ selectorTimeout (i + 1)) ∧
    (∀ i : Nat, i < 2 → gotoTimeout i < gotoTimeout (i + 1) ∧
      selectorTimeout i < selectorTimeout (i + 1)) := by
  refine ⟨?_, ?_, ?_⟩
  · interval_cases N
    · simp_all [runRetry, runRetryAux, MAX_RETRIES]
    · have h0 := hfail 0 (by omega)
      simp_all [runRetry, runRetryAux, MAX_RETRIES]
    · have h0 := hfail 0 (by omega)
      have hh1 := hfail 1 (by omega)
      simp_all [runRetry, runRetryAux, MAX_RETRIES]
    · have h0 := hfail 0 (by omega)
      have hh1 := hfail 1 (by omega)
      have hh2 := hfail 2 (by omega)
      simp_all [runRetry, runRetryAux, MAX_RETRIES]
  · intro i
    match i with
    | 0 => exact ⟨by decide, by decide⟩
    | 1 => exact ⟨by decide, by decide⟩
    | n + 2 => exact ⟨le_refl _, le_refl _⟩
  · intro i hi
    match i, hi with
    | 0, _ => exact ⟨by decide, by decide⟩
    | 1, _ => exact ⟨by decide, by decide⟩

/-- Witness for the amended C2: failing attempts 1-2 and succeeding on
attempt 3 yields the success value after exactly 3 attempts. -/
def outcomeW : Nat → Option Nat := fun i => if i = 2 then some 99 else none

theorem C2_retry_escalation_witness : runRetry outcomeW = some (99, 3) :=
  (C2_retry_escalation outcomeW 99 3 (by decide) (by decide)
    (by intro i hi; interval_cases i <;> rfl) rfl).1

/-- Claim C7: the minimum-interval floor of 2000 ms — the first admission call
of an identity is admitted, a second call 1000 ms later is denied (leaving the
record unchanged), a third call 2100 ms after the first is admitted; and, as
long as the window is under the ceiling, a call is denied exactly when the
time since the last admitted call is below the floor. -/
theorem C7_rate_floor (t0 : Int) (ht : 0 < t0) :
    (P4.checkRubinOTRateLimit P4.initRateRec t0).1 = true ∧
    (P4.checkRubinOTRateLimit P4.initRateRec t0).2 = ⟨[t0], t0⟩ ∧
    P4.checkRubinOTRateLimit ⟨[t0], t0⟩ (t0 + 1000) = (false, ⟨[t0], t0⟩) ∧
    (P4.checkRubinOTRateLimit ⟨[t0], t0⟩ (t0 + 2100)).1 = true ∧
    (∀ (r : P4.RateRec) (now : Int),
      (r.requests.filter (fun t => now - t < P4.RATE_LIMIT_WINDOW)).length <
        P4.MAX_RUBINOT_FETCHES_PER_MINUTE →
      ((P4.checkRubinOTRateLimit r now).1 = false ↔
        r.lastRequest > 0 ∧ now - r.lastRequest < P4.MIN_RUBINOT_INTERVAL)) := by
  have char : ∀ (r : P4.RateRec) (now : Int),
      (r.requests.filter (fun t => now - t < P4.RATE_LIMIT_WINDOW)).length <
        P4.MAX_RUBINOT_FETCHES_PER_MINUTE →
      ((P4.checkRubinOTRateLimit r now).1 = false ↔
        r.lastRequest > 0 ∧ now - r.lastRequest < P4.MIN_RUBINOT_INTERVAL) := by
    intro r now hw
    unfold P4.checkRubinOTRateLimit
    split
    · rename_i hc
      exact iff_of_true rfl hc
    · rename_i hc
      split
      · rename_i hcount
        exact absurd hcount (by omega)
      · simp only [Bool.true_eq_false, false_iff]
        exact hc
  refine ⟨?_, ?_, ?_, ?_, char⟩
  · have hchar := char P4.initRateRec t0 (by
      simp [P4.initRateRec, P4.MAX_RUBINOT_FETCHES_PER_MINUTE])
    have hne : ¬ ((P4.checkRubinOTRateLimit P4.initRateRec t0).1 = false) := by
      intro hb
      have h2 := hchar.mp hb
      simp [P4.initRateRec] at h2
    simpa using hne
  · unfold P4.checkRubinOTRateLimit
    split
    · rename_i hc
      simp [P4.initRateRec] at hc
    · split
      · rename_i hcount
        simp [P4.initRateRec, P4.MAX_RUBINOT_FETCHES_PER_MINUTE] at hcount
      · simp [P4.initRateRec]
  · unfold P4.checkRubinOTRateLimit
    split
    · rfl
    · rename_i hc
      refine absurd ⟨ht, ?_⟩ hc
      simp only [P4.MIN_RUBINOT_INTERVAL]
      omega
  · have hw : (([t0] : List Int).filter
        (fun t => t0 + 2100 - t < P4.RATE_LIMIT_WINDOW)).length <
        P4.MAX_RUBINOT_FETCHES_PER_MINUTE := by
      have hle : (([t0] : List Int).filter
          (fun t => t0 + 2100 - t < P4.RATE_LIMIT_WINDOW)).length ≤ 1 := by
        simpa using List.length_filter_le _ [t0]
      simp only [P4.MAX_RUBINOT_FETCHES_PER_MINUTE]
      omega
    have hchar := char ⟨[t0], t0⟩ (t0 + 2100) hw
    have hne : ¬ ((P4.checkRubinOTRateLimit ⟨[t0], t0⟩ (t0 + 2100)).1 = false) := by
      intro hb
      have h2 := hchar.mp hb
      simp only [P4.MIN_RUBINOT_INTERVAL] at h2
      omega
    simpa using hne

/-- Witness for C7 at the concrete first-call time 1. -/
theorem C7_rate_floor_witness :
    (P4.checkRubinOTRateLimit P4.initRateRec 1).1 = true :=
  (C7_rate_floor 1 (by decide)).1

/-- Claim C8: the sliding-window ceiling of 30 admissions per 60 s window —
thirty admission calls within a window all succeed, a further call while the
window still holds all thirty admitted timestamps is denied, and one more call
succeeds once the oldest admitted timestamp has aged out of the trailing
window. -/
theorem C8_window_ceiling :
    (P4.runCalls P4.initRateRec P4.callTimes).1 = true ∧
    P4.windowCount (P4.runCalls P4.initRateRec P4.callTimes).2 159000 =
      P4.MAX_RUBINOT_FETCHES_PER_MINUTE ∧
    (P4.checkRubinOTRateLimit (P4.runCalls P4.initRateRec P4.callTimes).2 159000).1 = false ∧
    P4.windowCount (P4.runCalls P4.initRateRec P4.callTimes).2 160000 =
      P4.MAX_RUBINOT_FETCHES_PER_MINUTE - 1 ∧
    (P4.checkRubinOTRateLimit (P4.runCalls P4.initRateRec P4.callTimes).2 160000).1 = true := by
  decide

/-- Claim C10: a denied rate-limit check leaves the identity's rate record
unchanged — the denial paths return before `lastRequest` is advanced and
before any timestamp is appended to the sliding window — so a denied call has
no effect on the outcome of any subsequent call; likewise the server.js
middleware denial path leaves the record unchanged. -/
theorem C10_denied_no_mutation :
    (∀ (r : P4.RateRec) (now : Int),
      (P4.checkRubinOTRateLimit r now).1 = false →
      (P4.checkRubinOTRateLimit r now).2 = r) ∧
    (∀ (r : P4.RateRec) (now later : Int),
      (P4.checkRubinOTRateLimit r now).1 = false →
      P4.checkRubinOTRateLimit (P4.checkRubinOTRateLimit r now).2 later =
        P4.checkRubinOTRateLimit r later) ∧
    (∀ (d : Option ServerJs.IpData) (now : Int),
      (ServerJs.rateLimitMiddleware d now).1 = ServerJs.MwOut.tooFast →
      (ServerJs.rateLimitMiddleware d now).2 = d.getD ServerJs.initIpData) := by
  have h1 : ∀ (r : P4.RateRec) (now : Int),
      (P4.checkRubinOTRateLimit r now).1 = false →
      (P4.checkRubinOTRateLimit r now).2 = r := by
    intro r now h
    unfold P4.checkRubinOTRateLimit at h ⊢
    split at h
    · rename_i hc
      rw [if_pos hc]
    · rename_i hc
      split at h
      · rename_i hcount
        rw [if_neg hc, if_pos hcount]
      · simp at h
  refine ⟨h1, ?_, ?_⟩
  · intro r now later h
    rw [h1 r now h]
  · intro d now h
    unfold ServerJs.rateLimitMiddleware at h ⊢
    split at h
    · rename_i hc
      rw [if_pos hc]
    · simp at h

/-- Witness for C10: a concrete denied call (floor violation) mutates nothing. -/
theorem C10_denied_no_mutation_witness :
    (P4.checkRubinOTRateLimit ⟨[1000], 1000⟩ 1500).2 = (⟨[1000], 1000⟩ : P4.RateRec) :=
  C10_denied_no_mutation.1 ⟨[1000], 1000⟩ 1500 (by decide)

/-- Claim C1 as stated is false on server.js: the middleware runs its
admission check before the cache is consulted, so a request whose list-cache
entry is fresh can still be denied 429 (here: cache stored 20 ms ago, request
400 ms after the previous one), and an admitted fresh-cache request still
advances the rate record (`lastRequest`). -/
theorem C1_counterexample :
    ((100 : Int) - 80 < CACHE_DURATION) ∧
    (ServerJs.handleDeathsPrefix (some ⟨[], 9700⟩) (some (⟨7, 80⟩ : CEntry Nat)) 100).1 =
      ServerJs.DeathsResp.tooFast ∧
    ((10000 : Int) - 9900 < CACHE_DURATION) ∧
    (ServerJs.handleDeathsPrefix (some ⟨[], 9000⟩) (some (⟨7, 9900⟩ : CEntry Nat)) 10000).1 =
      ServerJs.DeathsResp.cacheHit 7 ∧
    (ServerJs.handleDeathsPrefix (some ⟨[], 9000⟩) (some (⟨7, 9900⟩ : CEntry Nat)) 10000).2.1 ≠
      (⟨[], 9000⟩ : ServerJs.IpData) := by
  decide

/-- Claim C1 amended: on a fresh list-cache hit the deaths handler performs
zero `logRateLimitRequest` calls and leaves the sliding-window rate record
untouched, and answers either from the cache or with the middleware 429; the
middleware itself, however, still evaluates its 500 ms floor on every request
and advances `lastRequest` on the requests it passes. -/
theorem C1_cache_hit_skips_upstream_rate_log {α : Type} (d : Option ServerJs.IpData)
    (entry : Option (CEntry α)) (now : Int) (c : CEntry α)
    (hentry : entry = some c) (hfresh : now - c.timestamp < CACHE_DURATION) :
    (ServerJs.handleDeathsPrefix d entry now).2.2 = 0 ∧
    (ServerJs.handleDeathsPrefix d entry now).2.1.requests =
      (d.getD ServerJs.initIpData).requests ∧
    ((ServerJs.handleDeathsPrefix d entry now).1 = ServerJs.DeathsResp.tooFast ∨
      (ServerJs.handleDeathsPrefix d entry now).1 = ServerJs.DeathsResp.cacheHit c.data) := by
  subst hentry
  by_cases hc : (d.getD ServerJs.initIpData).lastRequest > 0 ∧
      now - (d.getD ServerJs.initIpData).lastRequest < 500
  · simp [ServerJs.handleDeathsPrefix, ServerJs.rateLimitMiddleware, hc]
  · simp [ServerJs.handleDeathsPrefix, ServerJs.rateLimitMiddleware, hc, hfresh]

/-- Witness for the amended C1 at a concrete fresh-cache request. -/
theorem C1_cache_hit_skips_upstream_rate_log_witness :
    (ServerJs.handleDeathsPrefix (some ⟨[40], 9000⟩) (some (⟨5, 9900⟩ : CEntry Nat)) 10000).2.2 = 0 ∧
    (ServerJs.handleDeathsPrefix (some ⟨[40], 9000⟩) (some (⟨5, 9900⟩ : CEntry Nat)) 10000).2.1.requests =
      ((some (⟨[40], 9000⟩ : ServerJs.IpData)).getD ServerJs.initIpData).requests :=
  ⟨(C1_cache_hit_skips_upstream_rate_log (some ⟨[40], 9000⟩) _ 10000 ⟨5, 9900⟩
      rfl (by decide)).1,
   (C1_cache_hit_skips_upstream_rate_log (some ⟨[40], 9000⟩) _ 10000 ⟨5, 9900⟩
      rfl (by decide)).2.1⟩

/-- Claim C4: with a populated but expired list-cache entry and every retry
attempt failing, the part_004 handler returns the expired cached value with
the X-Stale-Cache marker instead of an error; a terminal 500 is produced only
when no cached value exists at all. -/
theorem C4_stale_fallback (c : CEntry (List P4.Death)) (now : Int) (vip : Bool)
    (outcome : Nat → Option (List P4.Death))
    (hexp : CACHE_DURATION ≤ now - c.timestamp)
    (hfail : ∀ i, outcome i = none) :
    P4.handleDeaths (some c) now vip (P4.fetchDeathsFromRubinOT outcome) =
      ⟨Except.ok (P4.applyVipFilter vip c.data), true⟩ ∧
    (∃ e, P4.handleDeaths none now vip (P4.fetchDeathsFromRubinOT outcome) =
      ⟨Except.error e, false⟩) := by
  have hf : P4.fetchDeathsFromRubinOT outcome =
      Except.error "Failed to load RubinOT page after 4 attempts" := by
    rw [P4.fetchDeathsFromRubinOT, runRetry_exhausted outcome hfail]
  constructor
  · show (if now - c.timestamp < CACHE_DURATION then _ else
      P4.handleDeathsMiss (some c) vip (P4.fetchDeathsFromRubinOT outcome)) = _
    rw [if_neg (by omega : ¬ (now - c.timestamp < CACHE_DURATION)), hf]
    rfl
  · exact ⟨"Failed to load RubinOT page after 4 attempts", by rw [hf]; rfl⟩

/-- Witness for C4 at a concrete expired entry and all-failing upstream. -/
theorem C4_stale_fallback_witness :
    P4.handleDeaths (some ⟨[⟨"Ab", "Free Account"⟩], 0⟩) 3000 false
      (P4.fetchDeathsFromRubinOT (fun _ => none)) =
      ⟨Except.ok (P4.applyVipFilter false [⟨"Ab", "Free Account"⟩]), true⟩ :=
  (C4_stale_fallback ⟨[⟨"Ab", "Free Account"⟩], 0⟩ 3000 false (fun _ => none)
    (by decide) (fun _ => rfl)).1

/-- Claim C6 as stated is false on server.js: `browser.newPage()` at line 814
runs OUTSIDE the try of lines 816-856, so a record whose detail fetch fails
with a `newPage` rejection is not returned with sentinel defaults — the
promise rejects, `Promise.all` rejects, and the whole response errors: at
this concrete input the enrichment yields an error and no record at all. -/
theorem C6_counterexample :
    ServerJs.enrichAll (fun _ => ServerJs.DetailOut.newPageFailed "Protocol error")
      [⟨"Bob", 10, "a dragon", "t"⟩] = Except.error "Protocol error" ∧
    ∀ l : List ServerJs.EDeath,
      ServerJs.enrichAll (fun _ => ServerJs.DetailOut.newPageFailed "Protocol error")
        [⟨"Bob", 10, "a dragon", "t"⟩] ≠ Except.ok l := by
  refine ⟨rfl, ?_⟩
  intro l h
  have h2 : (Except.error "Protocol error" : Except String (List ServerJs.EDeath)) =
      Except.ok l := h
  cases h2

/-- Claim C6 amended: for every record whose per-entity detail fetch fails
inside the per-promise try (timeout, missing selector, or any error thrown
after the page was created), the response still contains that record, at its
position, with every detail field set to its sentinel default, and such
failures never abort or error the whole response; however, a failure of
`browser.newPage()` itself happens before the try is entered, so it rejects
the whole `Promise.all` and the handler answers 500.  The theorem states the
guarantee under the hypothesis that no per-record `newPage` call fails. -/
theorem C6_detail_failure_isolated (out : Nat → ServerJs.DetailOut)
    (ds : List ServerJs.Death)
    (hnp : ∀ (i : Nat) (e : String), out i ≠ ServerJs.DetailOut.newPageFailed e) :
    ∃ l : List ServerJs.EDeath, ServerJs.enrichAll out ds = Except.ok l ∧
      l.length = ds.length ∧
      (∀ (i : Nat) (d : ServerJs.Death), ds[i]? = some d →
        ServerJs.failedDetail (out i) = true →
        l[i]? = some ⟨d, ServerJs.sentinelChar⟩) := by
  obtain ⟨l, h1, h2, h3⟩ := enrichAllFrom_ok out hnp 0 ds
  refine ⟨l, h1, h2, ?_⟩
  intro i d hi hf
  refine h3 i d hi ?_
  simpa using hf

/-- Witness for the amended C6: a single record whose detail promise throws
inside the try is returned with the sentinel defaults, in an ok response. -/
theorem C6_detail_failure_isolated_witness :
    ∃ l : List ServerJs.EDeath,
      ServerJs.enrichAll (fun _ => ServerJs.DetailOut.threw)
        [⟨"Bob", 10, "a dragon", "t"⟩] = Except.ok l ∧
      l.length = ([(⟨"Bob", 10, "a dragon", "t"⟩ : ServerJs.Death)] : List ServerJs.Death).length ∧
      (∀ (i : Nat) (d : ServerJs.Death),
        ([(⟨"Bob", 10, "a dragon", "t"⟩ : ServerJs.Death)] : List ServerJs.Death)[i]? = some d →
        ServerJs.failedDetail ((fun _ => ServerJs.DetailOut.threw) i) = true →
        l[i]? = some ⟨d, ServerJs.sentinelChar⟩) :=
  C6_detail_failure_isolated (fun _ => ServerJs.DetailOut.threw)
    [⟨"Bob", 10, "a dragon", "t"⟩]
    (fun _ _ h => ServerJs.DetailOut.noConfusion h)

/-- Claim C5: for primary records with pairwise-distinct players, the enriched
result of the combine-and-sort tail preserves the source order of the primary
records for every completion order of the detail fetches (first conjunct holds
for the arbitrary arrival list `arrivals`), and the whole merged result is
independent of the completion order (second conjunct: any permutation of the
arrival list yields the identical output), because the merge is by original
index, not by completion order. -/
theorem C5_order_preservation (deaths : List ServerJs.Death)
    (cachedOf : String → Option ServerJs.CharData)
    (arrivals arrivals2 : List (Nat × ServerJs.CharData))
    (hnodup : (deaths.map (fun d => d.player)).Nodup)
    (hperm2 : arrivals2.Perm arrivals)
    (hkeys : (arrivals.map Prod.fst).Nodup) :
    (ServerJs.combineDeaths deaths cachedOf arrivals).map (fun e => e.death.player) =
      deaths.map (fun d => d.player) ∧
    ServerJs.combineDeaths deaths cachedOf arrivals2 =
      ServerJs.combineDeaths deaths cachedOf arrivals := by
  constructor
  · have hperm := combineDeaths_players_perm deaths cachedOf arrivals
    have hsorted : (ServerJs.combineDeaths deaths cachedOf arrivals).Pairwise
        (fun x y => ServerJs.mergeKey deaths x ≤ ServerJs.mergeKey deaths y) := by
      unfold ServerJs.combineDeaths
      exact sortByKey_pairwise _ _
    have hkeys2 := sorted_keys_eq_range deaths hnodup _ hperm hsorted
    apply List.ext_getElem
    · simpa using hperm.length_eq
    · intro i h1 h2
      have h3 : i < (ServerJs.combineDeaths deaths cachedOf arrivals).length := by
        simpa using h1
      have h4 : i < ((ServerJs.combineDeaths deaths cachedOf arrivals).map
          (ServerJs.mergeKey deaths)).length := by
        simpa using h3
      have h5 := List.getElem_of_eq hkeys2 h4
      simp only [List.getElem_map, List.getElem_range] at h5
      have h6 := findIndexJS_found _ deaths i h5
      obtain ⟨hi2, hp⟩ := h6
      simp only [List.getElem_map]
      exact (beq_iff_eq.mp hp).symm
  · have hfind : ∀ i : Nat, arrivals2.find? (fun p => p.1 == i) =
        arrivals.find? (fun p => p.1 == i) := by
      intro i
      exact find?_perm_of_nodup_keys hperm2 i ((hperm2.map Prod.fst).symm.nodup hkeys)
    have hchar : ∀ i, ServerJs.charAt arrivals2 i = ServerJs.charAt arrivals i := by
      intro i
      unfold ServerJs.charAt
      rw [hfind i]
    have hpaf : ∀ (k : Nat) (ds : List ServerJs.Death),
        ServerJs.promiseAllFetch arrivals2 k ds =
          ServerJs.promiseAllFetch arrivals k ds := by
      intro k ds
      induction ds generalizing k with
      | nil => rfl
      | cons d t ih => simp [ServerJs.promiseAllFetch, hchar, ih]
    unfold ServerJs.combineDeaths
    rw [hpaf]

/-- Claim C9: in every state reachable by any interleaving of any number of
concurrent `getBrowser` callers, at most one browser creation is in flight
(`browserLaunching` tracks it exactly), the process holds at most one live
browser instance (the single `sharedBrowser` slot cannot hold two), and any
two callers that completed received the same instance. -/
theorem C9_browser_singleton (n : Nat) (s : Browser.St) (h : Browser.Reach n s) :
    Browser.countLaunching s.tasks ≤ 1 ∧
    (s.launchingFlag = false → Browser.countLaunching s.tasks = 0) ∧
    (∀ a b : Nat, s.shared = some a → s.shared = some b → a = b) ∧
    (∀ (i j a b : Nat), s.tasks[i]? = some (Browser.Pc.done a) →
      s.tasks[j]? = some (Browser.Pc.done b) → a = b) := by
  obtain ⟨h1, h2, h3⟩ := inv_reach h
  refine ⟨?_, ?_, ?_, ?_⟩
  · rw [h1]
    split <;> omega
  · intro hf
    rw [h1, hf]
    simp
  · intro a b ha hb
    rw [ha] at hb
    exact Option.some.inj hb
  · intro i j a b hi hj
    have ha := h3 i a hi
    have hb := h3 j b hj
    rw [ha] at hb
    exact Option.some.inj hb

/-- Witness for C9 at the initial state with two concurrent first-callers. -/
theorem C9_browser_singleton_witness :
    Browser.countLaunching (Browser.init 2).tasks ≤ 1 :=
  (C9_browser_singleton 2 (Browser.init 2) Browser.Reach.init).1

/-- Concrete witness data for C5: three records A, B, C, none in the detail
cache, with detail results arriving in completion order C, A, B. -/
def deathsW : List ServerJs.Death :=
  [⟨"Aa", 10, "a bear", "t1"⟩, ⟨"Bb", 20, "a wolf", "t2"⟩, ⟨"Cc", 30, "a lion", "t3"⟩]

def charW : Nat → ServerJs.CharData :=
  fun i => ⟨s!"v{i}", s!"r{i}", "Free Account", "No Guild"⟩

/-- Witness for C5: with completion order [C, A, B] the enriched result still
lists the players in source order [A, B, C]. -/
theorem C5_order_preservation_witness :
    (ServerJs.combineDeaths deathsW (fun _ => none)
        [(2, charW 2), (0, charW 0), (1, charW 1)]).map (fun e => e.death.player) =
      deathsW.map (fun d => d.player) :=
  (C5_order_preservation deathsW (fun _ => none)
    [(2, charW 2), (0, charW 0), (1, charW 1)]
    [(2, charW 2), (0, charW 0), (1, charW 1)]
    (by decide) (List.Perm.refl _) (by decide)).1

end DeathTracker
